import Mathlib

/-!
Shallow embedding of the `env` package of sigs.k8s.io/e2e-framework
(file `pkg/env/env.go`): the action-sequencing and context-propagation
engine that drives suite setup/finish phases, per-feature before/after
actions, and feature execution with name-based filtering.

Contexts are modelled by an arbitrary type `C`; a Go `context.Context`
value that may be `nil` is an `Option C`.  Go errors are modelled as
`String`s; a fallible call returns `C × Option Err` (the context produced
so far together with the error, as the Go code does).  The external test
harness (`*testing.T`) is modelled by its observable effect: a tree of
named reporting scopes, each either completed or skipped.  Regular
expressions (supplied by the configuration, matched via `MatchString`)
are opaque to this package and modelled as predicates `String → Bool`.
-/

namespace E2E

/-- Go error values, modelled by their message. -/
abbrev Err := String

/-- The two optional name filters the engine reads from `envconf.Config`
(`FeatureRegex()` and `AssessmentRegex()`); a `nil` regex is `none`, and a
compiled regex is modelled by its `MatchString` predicate. -/
structure Config where
  featureRegex : Option (String → Bool)
  assessmentRegex : Option (String → Bool)

/-- Modelled from the spec: `envconf.New()` (package `envconf` is not in
src/) constructs a configuration; the two regular-expression filters are
optional and absent until configured. -/
def Config.new : Config :=
  { featureRegex := none, assessmentRegex := none }

/-- `types.EnvFunc`: `func(context.Context, *envconf.Config) (context.Context, error)`. -/
def EnvFunc (C : Type) := C → Config → C × Option Err

/-- `actionRole uint8` with its four constants `roleSetup`, `roleBefore`,
`roleAfter`, `roleFinish`. -/
inductive actionRole where
  | roleSetup
  | roleBefore
  | roleAfter
  | roleFinish
deriving DecidableEq, Repr

/-- The `action` record: a role tag and the ordered list of functions
registered together in one registration call. -/
structure action (C : Type) where
  role : actionRole
  funcs : List (EnvFunc C)

/-- Modelled from the spec: the body of `action.run` (file `action.go` is
not in src/): "executes each step function in the action's function list
in order, passing the output context of step i as the input to step i+1.
Fails immediately ... if any step function signals failure.  The error
and the last successfully produced context are returned together." -/
def runFuncs {C : Type} (cfg : Config) : List (EnvFunc C) → C → C × Option Err
  | [], c => (c, none)
  | f :: fs, c =>
    match f c cfg with
    | (c1, none) => runFuncs cfg fs c1
    | (c1, some e) => (c1, some e)

/-- Modelled from the spec: `action.run` (file `action.go` is not in src/),
running the action's functions via `runFuncs`. -/
def action.run {C : Type} (a : action C) (c : C) (cfg : Config) : C × Option Err :=
  runFuncs cfg a.funcs c

/-- `testEnv`: the concrete `Environment`.  `ctx` is an `Option` because a
Go interface value may be `nil`. -/
structure testEnv (C : Type) where
  ctx : Option C
  cfg : Config
  actions : List (action C)

/-- `newTestEnv()`: fresh environment with `context.Background()` (the
ambient root context, passed in as `bg`) and `envconf.New()`. -/
def newTestEnv {C : Type} (bg : C) : testEnv C :=
  { ctx := some bg, cfg := Config.new, actions := [] }

/-- `New()`: a test environment with no config attached. -/
def New {C : Type} (bg : C) : testEnv C :=
  newTestEnv bg

/-- `NewWithConfig(cfg)`. -/
def NewWithConfig {C : Type} (bg : C) (cfg : Config) : testEnv C :=
  { newTestEnv bg with cfg := cfg }

/-- `NewWithContext(ctx, cfg)`: errors on a nil context or nil config. -/
def NewWithContext {C : Type} (ctx : Option C) (cfg : Option Config) :
    Except Err (testEnv C) :=
  match ctx with
  | none => .error "context is nil"
  | some c =>
    match cfg with
    | none => .error "environment config is nil"
    | some cf => .ok { ctx := some c, cfg := cf, actions := [] }

/-- `(*testEnv).WithContext(ctx)`: panics on a nil context (modelled as
`none`); otherwise builds a new environment with the same config and a
copy of the action list (`append` onto a nil slice copies). -/
def testEnv.WithContext {C : Type} (e : testEnv C) (ctx : Option C) :
    Option (testEnv C) :=
  match ctx with
  | none => none
  | some c => some { ctx := some c, cfg := e.cfg, actions := [] ++ e.actions }

/-- `(*testEnv).Setup(funcs...)`. -/
def testEnv.Setup {C : Type} (e : testEnv C) (funcs : List (EnvFunc C)) : testEnv C :=
  if funcs.isEmpty then e
  else { e with actions := e.actions ++ [{ role := .roleSetup, funcs := funcs }] }

/-- `(*testEnv).BeforeTest(funcs...)`. -/
def testEnv.BeforeTest {C : Type} (e : testEnv C) (funcs : List (EnvFunc C)) : testEnv C :=
  if funcs.isEmpty then e
  else { e with actions := e.actions ++ [{ role := .roleBefore, funcs := funcs }] }

/-- `(*testEnv).AfterTest(funcs...)`. -/
def testEnv.AfterTest {C : Type} (e : testEnv C) (funcs : List (EnvFunc C)) : testEnv C :=
  if funcs.isEmpty then e
  else { e with actions := e.actions ++ [{ role := .roleAfter, funcs := funcs }] }

/-- `(*testEnv).Finish(funcs...)`. -/
def testEnv.Finish {C : Type} (e : testEnv C) (funcs : List (EnvFunc C)) : testEnv C :=
  if funcs.isEmpty then e
  else { e with actions := e.actions ++ [{ role := .roleFinish, funcs := funcs }] }

/-- `(*testEnv).getActionsByRole(r)`: filters the action list by role,
preserving order (the Go `nil`-slice fast path returns nil, which the
append loop also produces when nothing matches). -/
def testEnv.getActionsByRole {C : Type} (e : testEnv C) (r : actionRole) :
    List (action C) :=
  e.actions.filter (fun a => a.role == r)

/-- `(*testEnv).GetSetupActions()`. -/
def testEnv.GetSetupActions {C : Type} (e : testEnv C) : List (action C) :=
  e.getActionsByRole .roleSetup

/-- `(*testEnv).GetBeforeActions()`. -/
def testEnv.GetBeforeActions {C : Type} (e : testEnv C) : List (action C) :=
  e.getActionsByRole .roleBefore

/-- `(*testEnv).GetAfterActions()`. -/
def testEnv.GetAfterActions {C : Type} (e : testEnv C) : List (action C) :=
  e.getActionsByRole .roleAfter

/-- `(*testEnv).GetFinishActions()`. -/
def testEnv.GetFinishActions {C : Type} (e : testEnv C) : List (action C) :=
  e.getActionsByRole .roleFinish

/-- Modelled from the spec: `types.Level` (package `internal/types` is not
in src/) — "Level: Setup | Assess | Teardown — a step's position within a
feature's internal lifecycle", referenced in `execFeature` as
`types.LevelSetup`, `types.LevelAssess`, `types.LevelTeardown`. -/
inductive Level where
  | LevelSetup
  | LevelAssess
  | LevelTeardown
deriving DecidableEq, Repr

/-- Modelled from the spec: `types.StepFunc` (package `internal/types` is
not in src/) — a feature-level step function
`(context, reporting-handle, configuration) → context`, which "signals
failure via the reporting boundary rather than a return value"; the
reporting handle is external, so the modelled function transforms the
context given the configuration. -/
def StepFunc (C : Type) := C → Config → C

/-- Modelled from the spec: `types.Step` (package `internal/types` is not
in src/) — "an immutable (level, name, function) triple". -/
structure Step (C : Type) where
  level : Level
  name : String
  func : StepFunc C

/-- Modelled from the spec: `types.Feature` (package `internal/types` is
not in src/) — "a named, ordered collection of leveled steps", exposing
`Name()` and `Steps()`. -/
structure Feature (C : Type) where
  name : String
  steps : List (Step C)

/-- Modelled from the spec: `features.GetStepsByLevel` (package `features`
is not in src/) — a Feature is "an ordered collection of Steps,
partitioned by level (setup/assess/teardown)"; selection keeps the steps
of the requested level in the order they appear in the step list. -/
def GetStepsByLevel {C : Type} (steps : List (Step C)) (l : Level) : List (Step C) :=
  steps.filter (fun s => s.level == l)

/-- The status of a reporting sub-scope created by `t.Run`: its body
either ran to its end or aborted through `t.Skipf`. -/
inductive ScopeStatus where
  | completed
  | skipped
deriving DecidableEq, Repr

/-- The named reporting sub-scope `t.Run(assess.Name(), ...)` opens for
one Assess-level step. -/
structure AssessScope where
  name : String
  status : ScopeStatus
deriving DecidableEq, Repr

/-- The feature-level reporting sub-scope `t.Run(featName, ...)`, holding
the assessment sub-scopes opened inside it. -/
structure FeatureScope where
  name : String
  status : ScopeStatus
  assessScopes : List AssessScope
deriving DecidableEq, Repr

/-- The skip test `reg != nil && !reg.MatchString(name)` used for both the
feature-name and the assessment-name filter. -/
def regexSkips (r : Option (String → Bool)) (n : String) : Bool :=
  match r with
  | none => false
  | some p => !(p n)

/-- The assessment loop of `execFeature`: each assessment runs inside
`t.Run(assess.Name(), ...)`; a configured assessment filter that does not
match the name makes that sub-scope `t.Skipf` (leaving the threaded
context untouched), otherwise the step function updates the context. -/
def execAssessList {C : Type} (cfg : Config) :
    List (Step C) → C → C × List AssessScope
  | [], c => (c, [])
  | s :: ss, c =>
    if regexSkips cfg.assessmentRegex s.name then
      let r := execAssessList cfg ss c
      (r.1, { name := s.name, status := .skipped } :: r.2)
    else
      let r := execAssessList cfg ss (s.func c cfg)
      (r.1, { name := s.name, status := .completed } :: r.2)

/-- `(*testEnv).execFeature(ctx, t, f)`: opens the feature-level sub-scope;
if a feature filter is configured and the name does not match, `t.Skipf`
aborts the body before any step runs (the outer `ctx` variable is never
reassigned, so the input context is returned).  Otherwise Setup-level
steps run directly, Assess-level steps run as named sub-scopes, then
Teardown-level steps run directly, all threading the context. -/
def testEnv.execFeature {C : Type} (e : testEnv C) (ctx : C) (f : Feature C) :
    C × FeatureScope :=
  if regexSkips e.cfg.featureRegex f.name then
    (ctx, { name := f.name, status := .skipped, assessScopes := [] })
  else
    let c1 := (GetStepsByLevel f.steps .LevelSetup).foldl
      (fun c s => s.func c e.cfg) ctx
    let r := execAssessList e.cfg (GetStepsByLevel f.steps .LevelAssess) c1
    let c3 := (GetStepsByLevel f.steps .LevelTeardown).foldl
      (fun c s => s.func c e.cfg) r.1
    (c3, { name := f.name, status := .completed, assessScopes := r.2 })

/-- The Before/After loops of `Test`: each action's `run` is called with
the threaded context, the returned context is written back to `e.ctx`
even on error, and the first error stops the loop (`t.Fatalf`). -/
def runFailFastList {C : Type} (cfg : Config) :
    List (action C) → C → C × Option Err
  | [], c => (c, none)
  | a :: as, c =>
    match a.run c cfg with
    | (c1, none) => runFailFastList cfg as c1
    | (c1, some e) => (c1, some e)

/-- Outcome of one `Test` call: the nil-context panic, a `t.Fatalf` abort
(with the formatted message and the environment as mutated so far), or
normal completion with the mutated environment and the feature's
reporting scope. -/
inductive TestResult (C : Type) where
  | panicked : TestResult C
  | fatalMsg (msg : String) (env : testEnv C) : TestResult C
  | ok (env : testEnv C) (scope : FeatureScope) : TestResult C

/-- `(*testEnv).Test(t, feature)`: panics on nil context; runs the
Before-role actions fail-fast (`t.Fatalf("BeforeTest failure: %s: %v",
feature.Name(), err)` on the first error), then `execFeature`, then the
After-role actions fail-fast (`t.Fatalf("AfterTest failure: ...")`). -/
def testEnv.Test {C : Type} (e : testEnv C) (f : Feature C) : TestResult C :=
  match e.ctx with
  | none => .panicked
  | some c =>
    match runFailFastList e.cfg e.GetBeforeActions c with
    | (c1, some err) =>
      .fatalMsg ("BeforeTest failure: " ++ f.name ++ ": " ++ err)
        { e with ctx := some c1 }
    | (c1, none) =>
      let r := e.execFeature c1 f
      match runFailFastList e.cfg e.GetAfterActions r.1 with
      | (c3, some err) =>
        .fatalMsg ("AfterTest failure: " ++ f.name ++ ": " ++ err)
          { e with ctx := some c3 }
      | (c3, none) => .ok { e with ctx := some c3 } r.2

/-- The setup loop of `Run`: each Setup-role action's `run` threads the
context; the first error is passed to `log.Fatal`, which exits the
process. -/
def runSetupList {C : Type} (cfg : Config) :
    List (action C) → C → Except Err C
  | [], c => .ok c
  | a :: as, c =>
    match a.run c cfg with
    | (c1, none) => runSetupList cfg as c1
    | (_, some e) => .error e

/-- The finish loop of `Run`: each Finish-role action's `run` threads the
context (the returned context is written back even on error); an error is
passed to `log.Println` (collected here, in order) and the loop
continues. -/
def runFinishList {C : Type} (cfg : Config) :
    List (action C) → C → C × List Err
  | [], c => (c, [])
  | a :: as, c =>
    match a.run c cfg with
    | (c1, none) => runFinishList cfg as c1
    | (c1, some e) =>
      let r := runFinishList cfg as c1
      (r.1, e :: r.2)

/-- Outcome of one `Run` call: the nil-context panic, a `log.Fatal`
process exit during the setup phase (before `m.Run` is ever invoked), or
normal completion carrying the exit code returned by `m.Run`, the errors
logged during the finish phase, and the mutated environment. -/
inductive RunResult (C : Type) where
  | panicked : RunResult C
  | fatalExit (err : Err) : RunResult C
  | done (exit : Int) (logged : List Err) (env : testEnv C) : RunResult C

/-- `(*testEnv).Run(m)`: panics on nil context; runs the Setup-role
actions fail-fast (`log.Fatal` on the first error, so `m.Run` and the
finish phase never happen), then `m.Run()` (external, its exit code is
the parameter `exitCode`), then the Finish-role actions best-effort, and
returns `m.Run`'s exit code. -/
def testEnv.Run {C : Type} (e : testEnv C) (exitCode : Int) : RunResult C :=
  match e.ctx with
  | none => .panicked
  | some c =>
    match runSetupList e.cfg e.GetSetupActions c with
    | .error err => .fatalExit err
    | .ok c1 =>
      let r := runFinishList e.cfg e.GetFinishActions c1
      .done exitCode r.2 { e with ctx := some r.1 }

/-- Environments obtainable through the public constructors and
operations of the package: `New`, `NewWithConfig`, a successful
`NewWithContext`, a non-panicking `WithContext`, and the four
registration calls. -/
inductive Reachable {C : Type} : testEnv C → Prop where
  | new (bg : C) : Reachable (New bg)
  | newWithConfig (bg : C) (cfg : Config) : Reachable (NewWithConfig bg cfg)
  | newWithContext (ctx : Option C) (cfg : Option Config) (e : testEnv C)
      (h : NewWithContext ctx cfg = .ok e) : Reachable e
  | withContext (e : testEnv C) (he : Reachable e) (ctx : Option C)
      (e1 : testEnv C) (h : e.WithContext ctx = some e1) : Reachable e1
  | setup (e : testEnv C) (he : Reachable e) (fs : List (EnvFunc C)) :
      Reachable (e.Setup fs)
  | beforeTest (e : testEnv C) (he : Reachable e) (fs : List (EnvFunc C)) :
      Reachable (e.BeforeTest fs)
  | afterTest (e : testEnv C) (he : Reachable e) (fs : List (EnvFunc C)) :
      Reachable (e.AfterTest fs)
  | finish (e : testEnv C) (he : Reachable e) (fs : List (EnvFunc C)) :
      Reachable (e.Finish fs)

/-! ### Loop lemmas -/

theorem runFailFastList_cons {C : Type} (cfg : Config) (a : action C)
    (as : List (action C)) (c : C) :
    runFailFastList cfg (a :: as) c =
      match a.run c cfg with
      | (c1, none) => runFailFastList cfg as c1
      | (c1, some e) => (c1, some e) := rfl

theorem runFailFastList_append {C : Type} (cfg : Config) (l1 l2 : List (action C))
    (c : C) :
    runFailFastList cfg (l1 ++ l2) c =
      match runFailFastList cfg l1 c with
      | (c1, none) => runFailFastList cfg l2 c1
      | (c1, some e) => (c1, some e) := by
  induction l1 generalizing c with
  | nil => rfl
  | cons a as ih =>
    rw [List.cons_append, runFailFastList_cons, runFailFastList_cons]
    cases h : a.run c cfg with
    | mk c1 oe =>
      cases oe with
      | none => exact ih c1
      | some e => rfl

theorem runSetupList_cons {C : Type} (cfg : Config) (a : action C)
    (as : List (action C)) (c : C) :
    runSetupList cfg (a :: as) c =
      match a.run c cfg with
      | (c1, none) => runSetupList cfg as c1
      | (_, some e) => .error e := rfl

theorem runSetupList_append {C : Type} (cfg : Config) (l1 l2 : List (action C))
    (c : C) :
    runSetupList cfg (l1 ++ l2) c =
      match runSetupList cfg l1 c with
      | .ok c1 => runSetupList cfg l2 c1
      | .error e => .error e := by
  induction l1 generalizing c with
  | nil => rfl
  | cons a as ih =>
    rw [List.cons_append, runSetupList_cons, runSetupList_cons]
    cases h : a.run c cfg with
    | mk c1 oe =>
      cases oe with
      | none => exact ih c1
      | some e => rfl

theorem runFinishList_cons {C : Type} (cfg : Config) (a : action C)
    (as : List (action C)) (c : C) :
    runFinishList cfg (a :: as) c =
      match a.run c cfg with
      | (c1, none) => runFinishList cfg as c1
      | (c1, some e) => ((runFinishList cfg as c1).1, e :: (runFinishList cfg as c1).2) := rfl

theorem runFinishList_append {C : Type} (cfg : Config) (l1 l2 : List (action C))
    (c : C) :
    runFinishList cfg (l1 ++ l2) c =
      ((runFinishList cfg l2 (runFinishList cfg l1 c).1).1,
       (runFinishList cfg l1 c).2 ++ (runFinishList cfg l2 (runFinishList cfg l1 c).1).2) := by
  induction l1 generalizing c with
  | nil => simp [runFinishList]
  | cons a as ih =>
    rw [List.cons_append, runFinishList_cons, runFinishList_cons]
    cases h : a.run c cfg with
    | mk c1 oe =>
      cases oe with
      | none => exact ih c1
      | some e => simp [ih c1]

theorem execAssessList_eq {C : Type} (cfg : Config) (ss : List (Step C)) (c : C) :
    execAssessList cfg ss c =
      ((ss.filter (fun s => !(regexSkips cfg.assessmentRegex s.name))).foldl
         (fun c s => s.func c cfg) c,
       ss.map (fun s =>
         { name := s.name,
           status := if regexSkips cfg.assessmentRegex s.name
             then ScopeStatus.skipped else ScopeStatus.completed })) := by
  induction ss generalizing c with
  | nil => rfl
  | cons s ss ih =>
    cases h : regexSkips cfg.assessmentRegex s.name with
    | false => simp [execAssessList, h, List.filter_cons, ih]
    | true => simp [execAssessList, h, List.filter_cons, ih]

/-! ### Concrete sample values used by witnesses -/

/-- A lifecycle function that increments a `Nat` context. -/
def fnInc : EnvFunc Nat := fun c _ => (c + 1, none)

/-- A lifecycle function that fails with message `boom`, returning the
context it was given. -/
def fnBoom : EnvFunc Nat := fun c _ => (c, some "boom")

/-- A lifecycle function that adds ten to a `Nat` context. -/
def fnTen : EnvFunc Nat := fun c _ => (c + 10, none)

/-- A sample feature with interleaved Setup/Assess/Teardown steps. -/
def featEx : Feature Nat :=
  { name := "F"
    steps :=
      [ { level := .LevelSetup, name := "s1", func := fun c _ => c + 1 },
        { level := .LevelAssess, name := "a1", func := fun c _ => c * 2 },
        { level := .LevelTeardown, name := "t1", func := fun c _ => c + 5 },
        { level := .LevelAssess, name := "a2", func := fun c _ => c + 10 } ] }

/-! ### Claim theorems -/

/-- C7: calling any of the four registration operations with zero
functions returns the same environment unchanged: no empty Action is
appended and the action list length is unchanged. -/
theorem registration_zero_funcs_noop {C : Type} (e : testEnv C) :
    e.Setup [] = e ∧ e.BeforeTest [] = e ∧ e.AfterTest [] = e ∧ e.Finish [] = e ∧
    (e.Setup []).actions.length = e.actions.length ∧
    (e.BeforeTest []).actions.length = e.actions.length ∧
    (e.AfterTest []).actions.length = e.actions.length ∧
    (e.Finish []).actions.length = e.actions.length := by
  simp [testEnv.Setup, testEnv.BeforeTest, testEnv.AfterTest, testEnv.Finish]

/-- C8: `WithContext` with a nil context is a contract violation (the
panic, modelled as `none`); with a non-nil context it derives an
environment with the same configuration, the new context, and an
identical action sequence, reading back the same `GetSetupActions`; the
original value is not mutated (the embedding is pure, matching the
source's copy-on-derive `append` into a fresh slice). -/
theorem withContext_copies_actions {C : Type} (e : testEnv C) :
    e.WithContext none = none ∧
    ∀ c : C,
      e.WithContext (some c) =
        some { ctx := some c, cfg := e.cfg, actions := e.actions } ∧
      testEnv.GetSetupActions { ctx := some c, cfg := e.cfg, actions := e.actions } =
        e.GetSetupActions := by
  refine ⟨rfl, fun c => ⟨?_, rfl⟩⟩
  simp [testEnv.WithContext]

/-- C6: registering one or more functions through any of the four
registration calls appends exactly one Action with the corresponding
role; each retrieval operation returns exactly the actions of its role in
registration order with the new action last, and retrieval is empty when
no action of the role is registered. -/
theorem registration_appends_one_action {C : Type} (e : testEnv C)
    (fs : List (EnvFunc C)) (hne : fs ≠ []) :
    ((e.Setup fs).actions = e.actions ++ [{ role := .roleSetup, funcs := fs }] ∧
     (e.Setup fs).GetSetupActions =
       e.GetSetupActions ++ [{ role := .roleSetup, funcs := fs }] ∧
     (e.Setup fs).GetBeforeActions = e.GetBeforeActions ∧
     (e.Setup fs).GetAfterActions = e.GetAfterActions ∧
     (e.Setup fs).GetFinishActions = e.GetFinishActions) ∧
    ((e.BeforeTest fs).actions = e.actions ++ [{ role := .roleBefore, funcs := fs }] ∧
     (e.BeforeTest fs).GetBeforeActions =
       e.GetBeforeActions ++ [{ role := .roleBefore, funcs := fs }] ∧
     (e.BeforeTest fs).GetSetupActions = e.GetSetupActions ∧
     (e.BeforeTest fs).GetAfterActions = e.GetAfterActions ∧
     (e.BeforeTest fs).GetFinishActions = e.GetFinishActions) ∧
    ((e.AfterTest fs).actions = e.actions ++ [{ role := .roleAfter, funcs := fs }] ∧
     (e.AfterTest fs).GetAfterActions =
       e.GetAfterActions ++ [{ role := .roleAfter, funcs := fs }] ∧
     (e.AfterTest fs).GetSetupActions = e.GetSetupActions ∧
     (e.AfterTest fs).GetBeforeActions = e.GetBeforeActions ∧
     (e.AfterTest fs).GetFinishActions = e.GetFinishActions) ∧
    ((e.Finish fs).actions = e.actions ++ [{ role := .roleFinish, funcs := fs }] ∧
     (e.Finish fs).GetFinishActions =
       e.GetFinishActions ++ [{ role := .roleFinish, funcs := fs }] ∧
     (e.Finish fs).GetSetupActions = e.GetSetupActions ∧
     (e.Finish fs).GetBeforeActions = e.GetBeforeActions ∧
     (e.Finish fs).GetAfterActions = e.GetAfterActions) ∧
    (∀ r : actionRole, (∀ a ∈ e.actions, a.role ≠ r) →
      e.getActionsByRole r = []) := by
  cases fs with
  | nil => exact absurd rfl hne
  | cons g gs =>
    refine ⟨⟨?_, ?_, ?_, ?_, ?_⟩, ⟨?_, ?_, ?_, ?_, ?_⟩,
      ⟨?_, ?_, ?_, ?_, ?_⟩, ⟨?_, ?_, ?_, ?_, ?_⟩, ?_⟩ <;>
    simp [testEnv.Setup, testEnv.BeforeTest, testEnv.AfterTest, testEnv.Finish,
      testEnv.GetSetupActions, testEnv.GetBeforeActions, testEnv.GetAfterActions,
      testEnv.GetFinishActions, testEnv.getActionsByRole, List.filter_append,
      List.filter_eq_nil_iff]

/-- C6 witness: registering `[fnInc]` as a Setup action on a fresh
environment makes `GetSetupActions` return it last. -/
theorem registration_appends_one_action_witness :
    (testEnv.Setup (New (C := Nat) 0) [fnInc]).GetSetupActions =
      (New (C := Nat) 0).GetSetupActions ++ [{ role := .roleSetup, funcs := [fnInc] }] :=
  (registration_appends_one_action (New 0) [fnInc] (by simp)).1.2.1

/-- Status flip used when rephrasing a skip condition as a match condition. -/
theorem scopeStatus_flip (b : Bool) :
    (if b = false then ScopeStatus.skipped else ScopeStatus.completed) =
      (if b = true then ScopeStatus.completed else ScopeStatus.skipped) := by
  cases b <;> rfl

/-- C1: for an executing feature (no feature-filter skip; no assessment
filter configured), execution runs all Setup-level steps first (directly,
producing no sub-scopes), then all Assess-level steps (each as its own
named sub-scope, in order), then all Teardown-level steps; within each
level steps run in step-list order, and the context produced by the last
step of one level is the input to the first step of the next level. -/
theorem execFeature_runs_levels_in_order {C : Type} (e : testEnv C) (f : Feature C)
    (ctx : C)
    (hf : regexSkips e.cfg.featureRegex f.name = false)
    (ha : e.cfg.assessmentRegex = none) :
    e.execFeature ctx f =
      ((GetStepsByLevel f.steps .LevelTeardown).foldl (fun c s => s.func c e.cfg)
         ((GetStepsByLevel f.steps .LevelAssess).foldl (fun c s => s.func c e.cfg)
            ((GetStepsByLevel f.steps .LevelSetup).foldl (fun c s => s.func c e.cfg) ctx)),
       { name := f.name, status := .completed,
         assessScopes := (GetStepsByLevel f.steps .LevelAssess).map
           (fun s => { name := s.name, status := .completed }) }) := by
  simp only [testEnv.execFeature, hf]
  simp [execAssessList_eq, ha, regexSkips]

/-- C1 witness: on the sample feature, the three levels run in order and
thread the context (3 → setup 4 → assess 8, 18 → teardown 23), with one
completed sub-scope per assessment. -/
theorem execFeature_runs_levels_in_order_witness :
    regexSkips (New (C := Nat) 0).cfg.featureRegex featEx.name = false ∧
    (New (C := Nat) 0).cfg.assessmentRegex = none ∧
    (New (C := Nat) 0).execFeature 3 featEx =
      (23, { name := "F", status := .completed,
             assessScopes := [{ name := "a1", status := .completed },
                              { name := "a2", status := .completed }] }) :=
  ⟨rfl, rfl, execFeature_runs_levels_in_order (New 0) featEx 3 rfl rfl⟩

/-- C5: with a feature filter configured, a non-matching feature name
marks the feature sub-scope skipped and no step executes; with an
assessment filter configured, each non-matching Assess-level step's own
sub-scope is marked skipped while matching assessments still run; the
Setup-level and Teardown-level folds apply every step of their level,
unaffected by name filtering. -/
theorem filtering_skips_by_name {C : Type} (e : testEnv C) (f : Feature C) (ctx : C)
    (p q : String → Bool)
    (hp : e.cfg.featureRegex = some p)
    (hq : e.cfg.assessmentRegex = some q) :
    (p f.name = false →
      e.execFeature ctx f =
        (ctx, { name := f.name, status := .skipped, assessScopes := [] })) ∧
    (p f.name = true →
      e.execFeature ctx f =
        ((GetStepsByLevel f.steps .LevelTeardown).foldl (fun c s => s.func c e.cfg)
           (((GetStepsByLevel f.steps .LevelAssess).filter (fun s => q s.name)).foldl
              (fun c s => s.func c e.cfg)
              ((GetStepsByLevel f.steps .LevelSetup).foldl (fun c s => s.func c e.cfg) ctx)),
         { name := f.name, status := .completed,
           assessScopes := (GetStepsByLevel f.steps .LevelAssess).map
             (fun s =>
               { name := s.name,
                 status := if q s.name then ScopeStatus.completed
                   else ScopeStatus.skipped }) })) := by
  constructor
  · intro h
    simp [testEnv.execFeature, regexSkips, hp, h]
  · intro h
    simp [testEnv.execFeature, regexSkips, hp, h, execAssessList_eq, hq,
      Bool.not_not, scopeStatus_flip]

/-- A feature filter matching exactly the name `F`. -/
def pFeat : String → Bool := fun n => n == "F"

/-- An assessment filter matching exactly the name `a1`. -/
def qA1 : String → Bool := fun n => n == "a1"

/-- A configuration carrying both name filters. -/
def cfgFiltered : Config :=
  { featureRegex := some pFeat, assessmentRegex := some qA1 }

/-- An environment carrying both name filters. -/
def envFiltered : testEnv Nat := NewWithConfig 0 cfgFiltered

/-- The sample feature renamed to `G`, which the feature filter rejects. -/
def featG : Feature Nat := { name := "G", steps := featEx.steps }

/-- C5 witness: the feature filter skips feature `G` whole (context 3
untouched, no sub-scopes); on feature `F` the assessment filter skips
`a2` but runs setup (3 → 4), `a1` (4 → 8) and teardown (8 → 13). -/
theorem filtering_skips_by_name_witness :
    pFeat featG.name = false ∧
    envFiltered.execFeature 3 featG =
      (3, { name := "G", status := .skipped, assessScopes := [] }) ∧
    pFeat featEx.name = true ∧
    envFiltered.execFeature 3 featEx =
      (13, { name := "F", status := .completed,
             assessScopes := [{ name := "a1", status := .completed },
                              { name := "a2", status := .skipped }] }) :=
  ⟨rfl,
   (filtering_skips_by_name envFiltered featG 3 pFeat qA1 rfl rfl).1 rfl,
   rfl,
   (filtering_skips_by_name envFiltered featEx 3 pFeat qA1 rfl rfl).2 rfl⟩

/-- C10: when the configured feature filter rejects the feature's name,
`execFeature` returns its input context unchanged, and in `Test` the
After-role actions receive exactly the context produced by the Before-role
actions. -/
theorem feature_skip_preserves_context {C : Type} (e : testEnv C) (f : Feature C)
    (p : String → Bool)
    (hp : e.cfg.featureRegex = some p) (hnm : p f.name = false) :
    (∀ ctx : C, (e.execFeature ctx f).1 = ctx) ∧
    (∀ c c1 : C, e.ctx = some c →
      runFailFastList e.cfg e.GetBeforeActions c = (c1, none) →
      e.Test f =
        (match runFailFastList e.cfg e.GetAfterActions c1 with
         | (c3, some err) =>
           TestResult.fatalMsg ("AfterTest failure: " ++ f.name ++ ": " ++ err)
             { e with ctx := some c3 }
         | (c3, none) =>
           TestResult.ok { e with ctx := some c3 }
             { name := f.name, status := .skipped, assessScopes := [] })) := by
  have hskip : ∀ ctx : C, e.execFeature ctx f =
      (ctx, { name := f.name, status := .skipped, assessScopes := [] }) := by
    intro ctx
    simp [testEnv.execFeature, regexSkips, hp, hnm]
  refine ⟨fun ctx => by rw [hskip], fun c c1 hc hb => ?_⟩
  simp only [testEnv.Test, hc, hb, hskip c1]

/-- An environment with the name filters, one Before action and one After
action. -/
def envBA : testEnv Nat :=
  ((NewWithConfig 0 cfgFiltered).BeforeTest [fnInc]).AfterTest [fnTen]

/-- C10 witness: on the rejected feature `G`, `execFeature` hands back
context 3 unchanged, and `Test` feeds the Before-produced context 1
straight to the After action (1 → 11). -/
theorem feature_skip_preserves_context_witness :
    (envBA.execFeature 3 featG).1 = 3 ∧
    envBA.Test featG =
      TestResult.ok { envBA with ctx := some 11 }
        { name := "G", status := .skipped, assessScopes := [] } :=
  ⟨(feature_skip_preserves_context envBA featG pFeat rfl rfl).1 3,
   (feature_skip_preserves_context envBA featG pFeat rfl rfl).2 0 1 rfl rfl⟩

/-- C2: in `Run`'s setup phase the Setup-role actions run in registration
order threading the context; the first failing setup action makes the
whole suite abort (`log.Fatal`): whatever Setup actions remain (`rest`),
whatever `m.Run` would return (`exitCode`), and whatever Finish actions
the environment holds, the outcome is the fatal process exit. -/
theorem run_setup_failFast {C : Type} (e : testEnv C) (exitCode : Int)
    (c c1 c2 : C) (err : Err) (pre rest : List (action C)) (a : action C)
    (hc : e.ctx = some c)
    (hsplit : e.GetSetupActions = pre ++ a :: rest)
    (hpre : runSetupList e.cfg pre c = .ok c1)
    (hfail : a.run c1 e.cfg = (c2, some err)) :
    e.Run exitCode = .fatalExit err := by
  have hall : runSetupList e.cfg e.GetSetupActions c = .error err := by
    simp only [hsplit, runSetupList_append, hpre, runSetupList_cons, hfail]
  simp only [testEnv.Run, hc, hall]

/-- An environment whose second of three Setup actions fails, with a
Finish action registered after them. -/
def envRunFail : testEnv Nat :=
  ((((New 0).Setup [fnInc]).Setup [fnBoom]).Setup [fnTen]).Finish [fnInc]

/-- C2 witness: the failing second setup action aborts the suite; the
third setup, `m.Run` and the finish phase never happen. -/
theorem run_setup_failFast_witness :
    envRunFail.Run 7 = .fatalExit "boom" :=
  run_setup_failFast envRunFail 7 0 1 1 "boom"
    [{ role := .roleSetup, funcs := [fnInc] }]
    [{ role := .roleSetup, funcs := [fnTen] }]
    { role := .roleSetup, funcs := [fnBoom] }
    rfl rfl rfl rfl

/-- C3: in `Run`'s finish phase every Finish-role action runs in
registration order regardless of the suite outcome (`exitCode` is
arbitrary) and regardless of an earlier Finish failure: the failing
action's error is logged and the remaining actions `l2` still run,
threaded from the context the failing action returned, and `Run` returns
`m.Run`'s exit code unchanged. -/
theorem run_finish_bestEffort {C : Type} (e : testEnv C) (exitCode : Int)
    (c c0 c1 c2 : C) (err : Err) (errs1 : List Err)
    (l1 l2 : List (action C)) (a : action C)
    (hc : e.ctx = some c)
    (hsetup : runSetupList e.cfg e.GetSetupActions c = .ok c0)
    (hsplit : e.GetFinishActions = l1 ++ a :: l2)
    (h1 : runFinishList e.cfg l1 c0 = (c1, errs1))
    (hfail : a.run c1 e.cfg = (c2, some err)) :
    e.Run exitCode =
      .done exitCode (errs1 ++ err :: (runFinishList e.cfg l2 c2).2)
        { e with ctx := some (runFinishList e.cfg l2 c2).1 } := by
  have hall : runFinishList e.cfg e.GetFinishActions c0 =
      ((runFinishList e.cfg l2 c2).1,
       errs1 ++ err :: (runFinishList e.cfg l2 c2).2) := by
    simp only [hsplit, runFinishList_append, h1, runFinishList_cons, hfail]
  simp only [testEnv.Run, hc, hsetup, hall]

/-- An environment whose second of three Finish actions fails. -/
def envRunFin : testEnv Nat :=
  ((((New 0).Setup [fnInc]).Finish [fnInc]).Finish [fnBoom]).Finish [fnTen]

/-- C3 witness: the failing middle Finish action only gets logged — the
third Finish action still runs (2 → 12) and the exit code 7 comes back
untouched. -/
theorem run_finish_bestEffort_witness :
    envRunFin.Run 7 = .done 7 ["boom"] { envRunFin with ctx := some 12 } :=
  run_finish_bestEffort envRunFin 7 0 1 2 2 "boom" []
    [{ role := .roleFinish, funcs := [fnInc] }]
    [{ role := .roleFinish, funcs := [fnTen] }]
    { role := .roleFinish, funcs := [fnBoom] }
    rfl rfl rfl rfl rfl

/-- C4: in `Test`, the first failing Before-role action aborts the call
with `t.Fatalf` naming the feature and the error — the remaining Before
actions (`rest`), the feature body and the After actions never run (the
outcome does not depend on them); symmetrically, the first failing
After-role action aborts the remaining After actions (`rest`) and reports
the failure. -/
theorem test_failFast {C : Type} (e : testEnv C) (f : Feature C) (c : C)
    (hc : e.ctx = some c) :
    (∀ (pre rest : List (action C)) (a : action C) (c1 c2 : C) (err : Err),
      e.GetBeforeActions = pre ++ a :: rest →
      runFailFastList e.cfg pre c = (c1, none) →
      a.run c1 e.cfg = (c2, some err) →
      e.Test f = .fatalMsg ("BeforeTest failure: " ++ f.name ++ ": " ++ err)
        { e with ctx := some c2 }) ∧
    (∀ (c1 : C) (pre rest : List (action C)) (a : action C) (c2 c3 : C) (err : Err),
      runFailFastList e.cfg e.GetBeforeActions c = (c1, none) →
      e.GetAfterActions = pre ++ a :: rest →
      runFailFastList e.cfg pre (e.execFeature c1 f).1 = (c2, none) →
      a.run c2 e.cfg = (c3, some err) →
      e.Test f = .fatalMsg ("AfterTest failure: " ++ f.name ++ ": " ++ err)
        { e with ctx := some c3 }) := by
  constructor
  · intro pre rest a c1 c2 err hsplit hpre hfail
    have hb : runFailFastList e.cfg e.GetBeforeActions c = (c2, some err) := by
      simp only [hsplit, runFailFastList_append, hpre, runFailFastList_cons, hfail]
    simp only [testEnv.Test, hc, hb]
  · intro c1 pre rest a c2 c3 err hbok hsplit hpre hfail
    have ha2 : runFailFastList e.cfg e.GetAfterActions (e.execFeature c1 f).1 =
        (c3, some err) := by
      simp only [hsplit, runFailFastList_append, hpre, runFailFastList_cons, hfail]
    simp only [testEnv.Test, hc, hbok, ha2]

/-- An environment whose second of three Before actions fails. -/
def envTB : testEnv Nat :=
  (((New 0).BeforeTest [fnInc]).BeforeTest [fnBoom]).BeforeTest [fnTen]

/-- An environment with one Before action and a failing first of two
After actions. -/
def envTA : testEnv Nat :=
  (((New 0).BeforeTest [fnInc]).AfterTest [fnBoom]).AfterTest [fnTen]

/-- C4 witness: the failing second Before action aborts `Test` with the
formatted message before the feature body (context stays 1, untouched by
the feature's steps); the failing first After action aborts with the
After message after the feature ran (1 → 19). -/
theorem test_failFast_witness :
    envTB.Test featEx =
      .fatalMsg "BeforeTest failure: F: boom" { envTB with ctx := some 1 } ∧
    envTA.Test featEx =
      .fatalMsg "AfterTest failure: F: boom" { envTA with ctx := some 19 } :=
  ⟨(test_failFast envTB featEx 0 rfl).1
      [{ role := .roleBefore, funcs := [fnInc] }]
      [{ role := .roleBefore, funcs := [fnTen] }]
      { role := .roleBefore, funcs := [fnBoom] }
      1 1 "boom" rfl rfl rfl,
   (test_failFast envTA featEx 0 rfl).2 1
      []
      [{ role := .roleAfter, funcs := [fnTen] }]
      { role := .roleAfter, funcs := [fnBoom] }
      19 19 "boom" rfl rfl rfl rfl⟩

/-- C9: every environment reachable through the public constructors and
operations carries a non-nil context, so the nil-context panic at the
entry of `Run` and `Test` is unreachable for such environments. -/
theorem reachable_ctx_not_nil {C : Type} (e : testEnv C) (h : Reachable e) :
    e.ctx ≠ none ∧ (∀ exitCode : Int, e.Run exitCode ≠ .panicked) ∧
    (∀ f : Feature C, e.Test f ≠ .panicked) := by
  have hctx : e.ctx ≠ none := by
    induction h with
    | new bg => simp [New, newTestEnv]
    | newWithConfig bg cfg => simp [NewWithConfig, newTestEnv]
    | newWithContext ctx cfg e h =>
      cases ctx with
      | none => simp [NewWithContext] at h
      | some c =>
        cases cfg with
        | none => simp [NewWithContext] at h
        | some cf =>
          simp only [NewWithContext, Except.ok.injEq] at h
          subst h
          simp
    | withContext e he ctx e1 h ih =>
      cases ctx with
      | none => simp [testEnv.WithContext] at h
      | some c =>
        simp only [testEnv.WithContext, Option.some.injEq] at h
        subst h
        simp
    | setup e he fs ih =>
      by_cases hfs : fs.isEmpty <;> simpa [testEnv.Setup, hfs] using ih
    | beforeTest e he fs ih =>
      by_cases hfs : fs.isEmpty <;> simpa [testEnv.BeforeTest, hfs] using ih
    | afterTest e he fs ih =>
      by_cases hfs : fs.isEmpty <;> simpa [testEnv.AfterTest, hfs] using ih
    | finish e he fs ih =>
      by_cases hfs : fs.isEmpty <;> simpa [testEnv.Finish, hfs] using ih
  refine ⟨hctx, fun exitCode => ?_, fun f => ?_⟩
  · cases hh : e.ctx with
    | none => exact absurd hh hctx
    | some c =>
      simp only [testEnv.Run, hh]
      split <;> simp
  · cases hh : e.ctx with
    | none => exact absurd hh hctx
    | some c =>
      simp only [testEnv.Test, hh]
      split
      · simp
      · split <;> simp

/-- C9 witness: `(New 0).Setup [fnInc]` is reachable and neither `Run`
nor `Test` can hit the nil-context panic on it. -/
theorem reachable_ctx_not_nil_witness :
    (testEnv.Setup (New (C := Nat) 0) [fnInc]).ctx ≠ none ∧
    (testEnv.Setup (New (C := Nat) 0) [fnInc]).Run 7 ≠ .panicked ∧
    (testEnv.Setup (New (C := Nat) 0) [fnInc]).Test featEx ≠ .panicked :=
  ⟨(reachable_ctx_not_nil _ (Reachable.setup _ (Reachable.new 0) [fnInc])).1,
   (reachable_ctx_not_nil _ (Reachable.setup _ (Reachable.new 0) [fnInc])).2.1 7,
   (reachable_ctx_not_nil _ (Reachable.setup _ (Reachable.new 0) [fnInc])).2.2 featEx⟩

end E2E
